import Mathlib

/-!
Verification development for the rule-parsing and specification-evaluation
engine of the `bach` repository (modules `bach.rules_parser` and
`bach.exclusion_specification`).  The engine modules themselves are not
shipped with the sources at hand (only their unit tests and external
callers are), so every definition below is a shallow embedding modelled
from the specification, pinned down by the repository's unit tests
(`tests/unit/test_rules_parser.py`, `tests/unit/test_exclusion_specification.py`).

Strings are Lean `String`s; Python numeric field values are embedded as
`Int` (Python `int`) and `Rat` (Python `float`, exactly representing the
decimal literals the engine handles); fallible operations return
`Except String α` (Python exceptions such as `ValueError`).
-/

deriving instance DecidableEq for Except

namespace Bach

/-! ### Low-level string helpers -/

/-- Drop leading whitespace characters of a character list. -/
def dropLeadingWs (l : List Char) : List Char :=
  l.dropWhile Char.isWhitespace

/-- Modelled from the spec: Python `str.strip()` — remove leading and
trailing whitespace (used by the rule parser when it splits a raw rule
element on commas). -/
def trimL (l : List Char) : List Char :=
  (dropLeadingWs ((dropLeadingWs l.reverse).reverse))

/-- Trim on `String`s. -/
def trimS (s : String) : String :=
  String.mk (trimL s.data)

/-- Does `pat` occur as a contiguous subsequence of `l`?  Executable scan. -/
def containsSeq (pat : List Char) : List Char → Bool
  | [] => pat.isEmpty
  | c :: rest => pat.isPrefixOf (c :: rest) || containsSeq pat rest

/-- Fuel-driven worker for `splitOnSepL`: split on every occurrence of
the (non-empty) separator `s0 :: srest`, scanning left to right.  Each
step consumes at least one character, so fuel `l.length + 1` always
suffices. -/
def splitOnSepF (s0 : Char) (srest : List Char) : Nat → List Char → List (List Char)
  | 0, l => [l]
  | _ + 1, [] => [[]]
  | fuel + 1, c :: rest =>
    if (s0 :: srest).isPrefixOf (c :: rest) then
      [] :: splitOnSepF s0 srest fuel ((c :: rest).drop (srest.length + 1))
    else
      match splitOnSepF s0 srest fuel rest with
      | [] => [[c]]
      | g :: gs => (c :: g) :: gs

/-- Split a character list on every occurrence of the (non-empty)
separator `s0 :: srest`; models Python `str.split(sep)`.  Always
returns a non-empty list of parts. -/
def splitOnSepL (s0 : Char) (srest : List Char) (l : List Char) : List (List Char) :=
  splitOnSepF s0 srest (l.length + 1) l

/-- Modelled from the spec: Python `str.split(sep)` for a non-empty
separator string. -/
def splitOnStr (sep s : String) : List String :=
  match sep.data with
  | [] => [s]
  | c :: cs => (splitOnSepL c cs s.data).map String.mk

/-- Join a list of character lists with a separator (Python `sep.join`). -/
def joinSepL (sep : List Char) : List (List Char) → List Char
  | [] => []
  | [a] => a
  | a :: b :: rest => a ++ sep ++ joinSepL sep (b :: rest)

/-- Join strings with a separator string. -/
def joinStr (sep : String) (l : List String) : String :=
  String.mk (joinSepL sep.data (l.map String.data))

/-! ### Numeric literal parsing (Python `int(...)` / `float(...)`) -/

/-- Parse a non-empty list of decimal digits into a natural number. -/
def parseDigits : List Char → Option Nat
  | [] => none
  | l => l.foldl (fun acc c =>
      match acc with
      | none => none
      | some n => if c.isDigit then some (n * 10 + (c.toNat - '0'.toNat)) else none)
      (some 0)

/-- Modelled from the spec: Python `int(literal)` — an optional sign
followed by decimal digits; anything else raises. -/
def parseIntStr (s : String) : Option Int :=
  match s.data with
  | '-' :: rest => (parseDigits rest).map (fun n => -(n : Int))
  | '+' :: rest => (parseDigits rest).map (fun n => (n : Int))
  | l => (parseDigits l).map (fun n => (n : Int))

/-- Parse an unsigned decimal literal (`10`, `0.6`, `1.25`) as an exact
rational. -/
def parseUnsignedRat (l : List Char) : Option Rat :=
  match splitOnSepL '.' [] l with
  | [whole] => (parseDigits whole).map (fun n => (n : Rat))
  | [whole, frac] =>
    match parseDigits whole, parseDigits frac with
    | some w, some f => some (mkRat (w * 10 ^ frac.length + f) (10 ^ frac.length))
    | _, _ => none
  | _ => none

/-- Modelled from the spec: Python `float(literal)` restricted to plain
decimal literals, embedded as an exact rational. -/
def parseRatStr (s : String) : Option Rat :=
  match s.data with
  | '-' :: rest => (parseUnsignedRat rest).map (fun q => -q)
  | '+' :: rest => parseUnsignedRat rest
  | l => parseUnsignedRat l

/-! ### Regular expressions (Python `re.search`, restricted to the
constructs the rule language uses: literals, `.`, character classes with
ranges and the escapes `\s \S \w \W \d \D`, the quantifiers `* + ?`, and
the anchors `^` (leading) and `$` (trailing)) -/

/-- One member of a character class `[...]`. -/
inductive ClsItem where
  | single (c : Char)
  | range (lo hi : Char)
  | escClass (e : Char)
  deriving DecidableEq, Repr

/-- A regular-expression token. -/
inductive RTok where
  | lit (c : Char)
  | dot
  | esc (e : Char)
  | cls (neg : Bool) (items : List ClsItem)
  deriving DecidableEq, Repr

/-- A quantifier on a token. -/
inductive Quant where
  | one
  | star
  | plus
  | opt
  deriving DecidableEq, Repr

/-- A quantified token. -/
structure Piece where
  tok : RTok
  quant : Quant
  deriving DecidableEq, Repr

/-- Does the escape class `e` accept character `c`?  (`\s \S \w \W \d \D`.) -/
def escMatches (e c : Char) : Bool :=
  if e = 's' then c.isWhitespace
  else if e = 'S' then !c.isWhitespace
  else if e = 'w' then c.isAlphanum || c = '_'
  else if e = 'W' then !(c.isAlphanum || c = '_')
  else if e = 'd' then c.isDigit
  else if e = 'D' then !c.isDigit
  else false

/-- Does a class item accept character `c`? -/
def clsItemMatches (c : Char) : ClsItem → Bool
  | .single d => c = d
  | .range lo hi => decide (lo ≤ c) && decide (c ≤ hi)
  | .escClass e => escMatches e c

/-- Does a token accept character `c`? -/
def matchTok : RTok → Char → Bool
  | .lit d, c => c = d
  | .dot, c => c ≠ '\n'
  | .esc e, c => escMatches e c
  | .cls neg items, c =>
    if neg then !(items.any (clsItemMatches c)) else items.any (clsItemMatches c)

/-- The escapes that denote a character class rather than a literal. -/
def escClassChars : List Char := ['s', 'S', 'w', 'W', 'd', 'D']

/-- Read an optional quantifier from the head of the remaining pattern. -/
def quantOf : List Char → Quant × List Char
  | '*' :: r => (.star, r)
  | '+' :: r => (.plus, r)
  | '?' :: r => (.opt, r)
  | r => (.one, r)

/-- Parse the items of a character class up to the closing `]`,
returning the items and the rest of the pattern. -/
def parseClsItems : Nat → List Char → Option (List ClsItem × List Char)
  | 0, _ => none
  | _ + 1, ']' :: rest => some ([], rest)
  | fuel + 1, '\\' :: c :: rest =>
    (parseClsItems fuel rest).map (fun p =>
      ((if c ∈ escClassChars then ClsItem.escClass c else ClsItem.single c) :: p.1, p.2))
  | fuel + 1, c :: '-' :: d :: rest =>
    if d = ']' then
      (parseClsItems fuel ('-' :: d :: rest)).map (fun p => (ClsItem.single c :: p.1, p.2))
    else
      (parseClsItems fuel rest).map (fun p => (ClsItem.range c d :: p.1, p.2))
  | fuel + 1, c :: rest =>
    (parseClsItems fuel rest).map (fun p => (ClsItem.single c :: p.1, p.2))
  | _ + 1, [] => none

/-- Parse a pattern body (anchors already stripped) into quantified
tokens; unsupported constructs are read as literal characters, as the
rule language never uses them. -/
def parseRTokens : Nat → List Char → Option (List Piece)
  | 0, _ => none
  | _ + 1, [] => some []
  | fuel + 1, '\\' :: c :: rest =>
    let tok := if c ∈ escClassChars then RTok.esc c else RTok.lit c
    let (q, rest2) := quantOf rest
    (parseRTokens fuel rest2).map (fun ps => ⟨tok, q⟩ :: ps)
  | _ + 1, ['\\'] => none
  | fuel + 1, '[' :: rest =>
    let (neg, body) :=
      match rest with
      | '^' :: rest2 => (true, rest2)
      | _ => (false, rest)
    match parseClsItems fuel body with
    | none => none
    | some (items, rest2) =>
      let (q, rest3) := quantOf rest2
      (parseRTokens fuel rest3).map (fun ps => ⟨RTok.cls neg items, q⟩ :: ps)
  | fuel + 1, '.' :: rest =>
    let (q, rest2) := quantOf rest
    (parseRTokens fuel rest2).map (fun ps => ⟨RTok.dot, q⟩ :: ps)
  | fuel + 1, c :: rest =>
    let (q, rest2) := quantOf rest
    (parseRTokens fuel rest2).map (fun ps => ⟨RTok.lit c, q⟩ :: ps)

/-- Fuel-driven backtracking matcher: can `pieces` consume a prefix of
`s` (all of `s` when `endAnch` is set)?  Every recursive call strictly
decreases `pieces.length + s.length`, so fuel
`pieces.length + s.length + 1` always suffices. -/
def matchSeqF (endAnch : Bool) : Nat → List Piece → List Char → Bool
  | 0, _, _ => false
  | _ + 1, [], s => !endAnch || s.isEmpty
  | fuel + 1, p :: ps, s =>
    match p.quant, s with
    | .one, [] => false
    | .one, c :: rest => matchTok p.tok c && matchSeqF endAnch fuel ps rest
    | .opt, [] => matchSeqF endAnch fuel ps []
    | .opt, c :: rest =>
      matchSeqF endAnch fuel ps (c :: rest) ||
        (matchTok p.tok c && matchSeqF endAnch fuel ps rest)
    | .star, [] => matchSeqF endAnch fuel ps []
    | .star, c :: rest =>
      matchSeqF endAnch fuel ps (c :: rest) ||
        (matchTok p.tok c && matchSeqF endAnch fuel (p :: ps) rest)
    | .plus, [] => false
    | .plus, c :: rest =>
      matchTok p.tok c && matchSeqF endAnch fuel (⟨p.tok, Quant.star⟩ :: ps) rest

/-- Backtracking matcher with sufficient fuel. -/
def matchSeq (endAnch : Bool) (pieces : List Piece) (s : List Char) : Bool :=
  matchSeqF endAnch (pieces.length + s.length + 1) pieces s

/-- Try to match at every start position (Python `re.search` without a
leading anchor). -/
def searchAll (endAnch : Bool) (ps : List Piece) : List Char → Bool
  | [] => matchSeq endAnch ps []
  | c :: rest => matchSeq endAnch ps (c :: rest) || searchAll endAnch ps rest

/-- Parse a full pattern: strip a leading `^` and an unescaped trailing
`$`, then read the body. -/
def parseRegex (pattern : String) : Option (Bool × Bool × List Piece) :=
  let l := pattern.data
  let (anch, l1) :=
    match l with
    | '^' :: r => (true, r)
    | _ => (false, l)
  let (endAnch, l2) :=
    match l1.reverse with
    | '$' :: '\\' :: _ => (false, l1)
    | '$' :: r => (true, r.reverse)
    | _ => (false, l1)
  (parseRTokens (l2.length + 1) l2).map (fun ps => (anch, endAnch, ps))

/-- Modelled from the spec: `re.search(pattern, s)` as a Boolean — true
iff the pattern is found somewhere in `s` (anchors only when the pattern
itself supplies them).  A pattern outside the supported fragment fails
to parse and matches nothing. -/
def reSearch (pattern s : String) : Bool :=
  match parseRegex pattern with
  | none => false
  | some (anch, endAnch, ps) =>
    if anch then matchSeq endAnch ps s.data else searchAll endAnch ps s.data

/-! ### Expression tokenizer (§4.1) -/

/-- The fixed operator vocabulary, longest first: `regexp`, `contains`,
`letter_set`, `>=`, `<=`, `!=`, `>`, `<`, `=`. -/
def validOperators : List String :=
  ["regexp", "contains", "letter_set", ">=", "<=", "!=", ">", "<", "="]

/-- Split a character list at its first occurrence of `ch`:
`(before, after)`; `none` when `ch` does not occur (Python
`split(ch, maxsplit=1)`). -/
def breakAtChar (ch : Char) : List Char → Option (List Char × List Char)
  | [] => none
  | c :: rest =>
    if c = ch then some ([], rest)
    else (breakAtChar ch rest).map (fun p => (c :: p.1, p.2))

/-- Split a character list at its first space. -/
def breakAtSpace (l : List Char) : Option (List Char × List Char) :=
  breakAtChar ' ' l

/-- A tokenized condition: field name, operator token, literal value. -/
structure CondTriple where
  name : String
  operator : String
  value : String
  deriving DecidableEq, Repr

/-- Modelled from the spec: the expression tokenizer — split one condition
string into `field operator value` (the value keeps any further spaces,
as with Python `split(' ', maxsplit=2)`); fewer than three tokens or an
empty value is an "Incorrect expression" length error, an operator token
outside the fixed vocabulary is an "Incorrect operator" error. -/
def tokenizeCondition (expression : String) : Except String CondTriple :=
  match breakAtSpace expression.data with
  | none => .error ("Incorrect expression length: " ++ expression)
  | some (name, rest) =>
    match breakAtSpace rest with
    | none => .error ("Incorrect expression length: " ++ expression)
    | some (op, value) =>
      if value.isEmpty then
        .error ("Incorrect expression length: " ++ expression)
      else if (String.mk op) ∈ validOperators then
        .ok ⟨String.mk name, String.mk op, String.mk value⟩
      else
        .error ("Incorrect operator: " ++ String.mk op)

/-! ### Rows and field values -/

/-- A field value of a report row: Python `int`, Python `float`
(embedded as an exact rational), or `str`. -/
inductive FieldValue where
  | intV (n : Int)
  | ratV (q : Rat)
  | strV (s : String)
  deriving DecidableEq, Repr

/-- A report row: a named-field record, supplied by the external row
source.  Lookup is by field name. -/
def Row : Type := List (String × FieldValue)

instance : DecidableEq Row := by
  unfold Row
  infer_instance

/-- Attribute-style lookup of a field on a row (`row[fieldName]`);
`none` models Python's attribute/lookup error for an absent name. -/
def getField (r : Row) (name : String) : Option FieldValue :=
  (r.find? (fun p => p.1 = name)).map (fun p => p.2)

/-- Python `str(value)`: the string form of a field value.  (Float
rendering is approximated by the rational's canonical form; no rule in
the repository applies a string operator to a float field.) -/
def strForm : FieldValue → String
  | .intV n => toString n
  | .ratV q => toString q
  | .strV s => s

/-- The numeric reading of a field value, when it has one (`str` fields
are read through `float(...)`). -/
def toRatValue : FieldValue → Option Rat
  | .intV n => some (n : Rat)
  | .ratV q => some q
  | .strV s => parseRatStr s

/-! ### Specification entries (§4.3) -/

/-- Modelled from the spec: a `SpecificationEntry` — one condition bound
to a source type: the tag of the source the entry interprets, the field
name, the operator token, and the literal value, produced by the
tokenizer. -/
structure SpecificationEntry where
  entry_type : String
  name : String
  operator : String
  value : String
  deriving DecidableEq, Repr

/-- Construct a specification entry for a source type by tokenizing the
raw expression (raises the tokenizer's errors). -/
def mkSpecEntry (entry_type expression : String) : Except String SpecificationEntry :=
  (tokenizeCondition expression).map (fun t => ⟨entry_type, t.name, t.operator, t.value⟩)

/-- Modelled from the spec: `AdsExclusionSpecificationEntry(expression)`
— an entry over the primary source `GOOGLE_ADS_INFO`. -/
def AdsExclusionSpecificationEntry (expression : String) : Except String SpecificationEntry :=
  mkSpecEntry "GOOGLE_ADS_INFO" expression

/-- An entry over the website-enrichment source `WEBSITE_INFO`. -/
def WebsiteExclusionSpecificationEntry (expression : String) : Except String SpecificationEntry :=
  mkSpecEntry "WEBSITE_INFO" expression

/-- Ordered comparison of two rationals under an operator token. -/
def ratCompare (op : String) (a b : Rat) : Bool :=
  if op = ">" then decide (a > b)
  else if op = "<" then decide (a < b)
  else if op = ">=" then decide (a ≥ b)
  else decide (a ≤ b)

/-- Modelled from the spec: the numeric branch of `is_satisfied_by` for
`> < >= <=` — the stored literal is coerced to the numeric type of the
row's value (`int(literal)` for an `int` field, `float(literal)` for a
`float` field) and compared; a string field falls back to Python's
lexicographic string comparison of `str(literal)` with the value. -/
def numericSatisfied (op : String) (v : FieldValue) (literal : String) :
    Except String Bool :=
  match v with
  | .intV n =>
    match parseIntStr literal with
    | some m => .ok (ratCompare op (n : Rat) (m : Rat))
    | none => .error ("could not convert literal to int: " ++ literal)
  | .ratV q =>
    match parseRatStr literal with
    | some x => .ok (ratCompare op q x)
    | none => .error ("could not convert literal to float: " ++ literal)
  | .strV s =>
    .ok (if op = ">" then decide (literal < s)
         else if op = "<" then decide (s < literal)
         else if op = ">=" then decide (literal < s ∨ literal = s)
         else decide (s < literal ∨ s = literal))

/-- Modelled from the spec: the `=` / `!=` branch — numeric equality
when both sides parse as numbers, otherwise case-sensitive string
equality of the field's string form with the literal. -/
def equalitySatisfied (v : FieldValue) (literal : String) : Bool :=
  match toRatValue v, parseRatStr literal with
  | some a, some b => decide (a = b)
  | _, _ => decide (strForm v = literal)

/-- Modelled from the spec: `SpecificationEntry.is_satisfied_by(row)` —
look up the entry's field on the row (a missing field is a hard error,
never a boolean), then apply the operator's semantics: `> < >= <=`
numeric comparison after coercing the literal, `=` / `!=` numeric-or-
string equality, `contains` substring test on the string form, `regexp`
regular-expression search on the string form. -/
def is_satisfied_by (e : SpecificationEntry) (r : Row) : Except String Bool :=
  match getField r e.name with
  | none => .error ("Entity " ++ e.name ++ " not found")
  | some v =>
    if e.operator = ">" ∨ e.operator = "<" ∨ e.operator = ">=" ∨ e.operator = "<=" then
      numericSatisfied e.operator v e.value
    else if e.operator = "=" then
      .ok (equalitySatisfied v e.value)
    else if e.operator = "!=" then
      .ok (!equalitySatisfied v e.value)
    else if e.operator = "contains" then
      .ok (containsSeq e.value.data (strForm v).data)
    else if e.operator = "regexp" then
      .ok (reSearch e.value (strForm v))
    else
      .error ("Unsupported operator: " ++ e.operator)

/-! ### Exclusion specification (§4.4) -/

/-- Modelled from the spec: an `ExclusionSpecification` — a disjunction
of conjunctions of specification entries. -/
structure ExclusionSpecification where
  specifications : List (List SpecificationEntry)
  deriving DecidableEq, Repr

/-- Modelled from the spec: truthiness — a specification is active iff
it has at least one non-empty group. -/
def isActive (s : ExclusionSpecification) : Bool :=
  s.specifications.any (fun g => !g.isEmpty)

/-- Evaluate one group: all entries must hold, stopping at the first
false entry (errors propagate). -/
def groupSatisfies (g : List SpecificationEntry) (r : Row) : Except String Bool :=
  match g with
  | [] => .ok true
  | e :: es =>
    match is_satisfied_by e r with
    | .error msg => .error msg
    | .ok true => groupSatisfies es r
    | .ok false => .ok false

/-- Evaluate a disjunction of groups: any group whose entries all hold
suffices, stopping at the first satisfied group (errors propagate). -/
def groupsSatisfy (gs : List (List SpecificationEntry)) (r : Row) : Except String Bool :=
  match gs with
  | [] => .ok false
  | g :: rest =>
    match groupSatisfies g r with
    | .error msg => .error msg
    | .ok true => .ok true
    | .ok false => groupsSatisfy rest r

/-- Modelled from the spec: `ExclusionSpecification.satisfies(row)` —
true iff any group's entries all individually return true for the row
(OR of ANDs, short-circuiting per group and per entry). -/
def satisfies (s : ExclusionSpecification) (r : Row) : Except String Bool :=
  groupsSatisfy s.specifications r

/-- Modelled from the spec: `entries_for_type(type)` — keep, from each
group, only the entries whose source type equals `type`, dropping
groups that become empty. -/
def entries_for_type (s : ExclusionSpecification) (t : String) : ExclusionSpecification :=
  ⟨s.specifications.filterMap (fun g =>
    if (g.filter (fun e => e.entry_type = t)).isEmpty then none
    else some (g.filter (fun e => e.entry_type = t)))⟩

/-- The projection to the primary-source entries
(`ads_specs_entries`). -/
def ads_specs_entries (s : ExclusionSpecification) : ExclusionSpecification :=
  entries_for_type s "GOOGLE_ADS_INFO"

/-- Keep the rows a specification satisfies, in order (errors
propagate). -/
def filterRows (s : ExclusionSpecification) : List Row → Except String (List Row)
  | [] => .ok []
  | r :: rest =>
    match satisfies s r with
    | .error msg => .error msg
    | .ok b =>
      match filterRows s rest with
      | .error msg => .error msg
      | .ok tail => .ok (if b then r :: tail else tail)

/-- Modelled from the spec: the report filter
(`apply_specifications(rows)`) — an inactive specification returns an
empty result; otherwise keep exactly the rows the specification
satisfies, preserving order and all fields. -/
def apply_specifications (s : ExclusionSpecification) (rows : List Row) :
    Except String (List Row) :=
  if isActive s then filterRows s rows else .ok []

/-! ### Rule parser (§4.2, module `bach.rules_parser`) -/

/-- Modelled from the spec: a `Rule` — an immutable pair of the source
type tag and the unparsed `field operator value` expression. -/
structure Rule where
  type : String
  expression : String
  deriving DecidableEq, Repr

/-- The default source type for conditions without an explicit `TYPE:`
prefix (the primary source tag). -/
def defaultRuleType : String := "GOOGLE_ADS_INFO"

/-- Modelled from the spec: the fixed table of named character sets for
the `letter_set` macro, mapping a set name to a regular-expression
literal. -/
def letterSets : List (String × String) :=
  [("latin_only", "^[a-zA-Z0-9\\s\\W]*$"),
   ("no_latin", "^[^a-zA-Z]*$")]

/-- Split an optional `TYPE:` prefix off a condition (Python
`split(':', maxsplit=1)`); a condition without one gets the default
source type. -/
def splitTypePrefix (c : String) : String × String :=
  match breakAtChar ':' c.data with
  | some (before, after) => (String.mk before, String.mk after)
  | none => (defaultRuleType, c)

/-- Modelled from the spec: `letter_set` macro expansion — a tokenized
`field letter_set name` condition is rewritten into
`field regexp '<pattern>'` through the fixed table before Rule
construction; any other condition keeps its expression verbatim.  An
unregistered set name is a macro lookup failure. -/
def expandMacro (ty : String) (t : CondTriple) (expr : String) : Except String Rule :=
  if t.operator = "letter_set" then
    match letterSets.lookup t.value with
    | some pat => .ok ⟨ty, t.name ++ " regexp '" ++ pat ++ "'"⟩
    | none => .error ("Unknown letter_set: " ++ t.value)
  else
    .ok ⟨ty, expr⟩

/-- Modelled from the spec: processing of one raw condition — strip
surrounding whitespace, split an optional `TYPE:` prefix (defaulting to
the primary source tag), tokenize, and expand a `letter_set` macro
before Rule construction.  Tokenizer errors and unknown set names
propagate. -/
def parseCondition (cond : String) : Except String Rule :=
  match tokenizeCondition (splitTypePrefix (trimS cond)).2 with
  | .error msg => .error msg
  | .ok t =>
    expandMacro (splitTypePrefix (trimS cond)).1 t (splitTypePrefix (trimS cond)).2

/-- The two accepted shapes of raw rule input: a single combined
expression string, or a sequence of raw rule strings. -/
inductive RawRules where
  | expr (s : String)
  | rules (l : List String)

/-- Modelled from the spec: `rules_parser.generate_rules(raw_rules)` —
a sequence input maps each element to one RuleGroup by splitting it on
commas; a combined-string input is split on ` OR ` into RuleGroups and
each group on ` AND ` into Rules.  Group and rule order mirror input
order. -/
def generate_rules : RawRules → Except String (List (List Rule))
  | .rules l => l.mapM (fun e => (splitOnStr "," e).mapM parseCondition)
  | .expr s =>
    (splitOnStr " OR " s).mapM (fun clause =>
      (splitOnStr " AND " clause).mapM parseCondition)

/-! ### Concrete fixtures from the repository's unit tests -/

/-- The entry an `AdsExclusionSpecificationEntry` construction yields,
with a sentinel for construction failure (every use below is on an
expression whose construction succeeds). -/
def adsEntryD (expression : String) : SpecificationEntry :=
  match AdsExclusionSpecificationEntry expression with
  | .ok e => e
  | .error _ => ⟨"GOOGLE_ADS_INFO", "", "", ""⟩

/-- The entry a `WebsiteExclusionSpecificationEntry` construction
yields, with a sentinel for construction failure. -/
def websiteEntryD (expression : String) : SpecificationEntry :=
  match WebsiteExclusionSpecificationEntry expression with
  | .ok e => e
  | .error _ => ⟨"WEBSITE_INFO", "", "", ""⟩

/-- The `FakePlacement` row of `test_exclusion_specification.py`. -/
def fakePlacement : Row :=
  [("campaign_id", .intV 1),
   ("campaign_name", .strV "01_test_campaign"),
   ("placement", .strV "example.com"),
   ("clicks", .intV 10),
   ("ctr", .ratV (mkRat 2 5)),
   ("placement_type", .strV "WEBSITE")]

/-- The `sample_exclusion_specification` fixture: one group ANDing
`clicks > 1` with `conversion_name regexp test_conversion`. -/
def sampleSpecification : ExclusionSpecification :=
  ⟨[[adsEntryD "clicks > 1", adsEntryD "conversion_name regexp test_conversion"]]⟩

/-- The single row of the `placements` report fixture. -/
def samplePlacementRow : Row :=
  [("placement", .strV "youtube_video"),
   ("placement_type", .strV "YOUTUBE_VIDEO"),
   ("clicks", .intV 10),
   ("conversion_name", .strV "test_conversion"),
   ("conversions_", .intV 0)]

/-- A specification mixing primary-source and website-enrichment
entries, for the projection claims. -/
def mixedSpecification : ExclusionSpecification :=
  ⟨[[adsEntryD "clicks > 1", websiteEntryD "title contains game"],
    [websiteEntryD "title regexp game"]]⟩

/-- Does evaluating an entry on a row complete without an error? -/
def noError (e : SpecificationEntry) (r : Row) : Bool :=
  match is_satisfied_by e r with
  | .ok _ => true
  | .error _ => false

/-- The `raw_rules` fixture of `test_rules_parser.py`. -/
def rawRulesFixture : List String :=
  ["GOOGLE_ADS_INFO:clicks > 0,cost > 100",
   "GOOGLE_ADS_INFO:placement_type = MOBILE_APPLICATION,ctr = 0",
   "GOOGLE_ADS_INFO:conversions = 0,WEBSITE_INFO:title regexp game"]

/-- The `implicit_raw_rules` fixture (untyped conditions default to the
primary source tag). -/
def implicitRawRulesFixture : List String :=
  ["clicks > 0,cost > 100",
   "placement_type = MOBILE_APPLICATION,ctr = 0",
   "conversions = 0,WEBSITE_INFO:title regexp game"]

/-- The `rules_expression` fixture (the combined ` AND ` / ` OR `
string form of the same rules). -/
def rulesExpressionFixture : String :=
  "GOOGLE_ADS_INFO:clicks > 0 AND GOOGLE_ADS_INFO:cost > 100" ++
  " OR GOOGLE_ADS_INFO:placement_type = MOBILE_APPLICATION AND " ++
  "GOOGLE_ADS_INFO:ctr = 0 OR GOOGLE_ADS_INFO:conversions = 0 AND " ++
  "WEBSITE_INFO:title regexp game"

/-- The `expected_rules` fixture. -/
def expectedRulesFixture : List (List Rule) :=
  [[⟨"GOOGLE_ADS_INFO", "clicks > 0"⟩,
    ⟨"GOOGLE_ADS_INFO", "cost > 100"⟩],
   [⟨"GOOGLE_ADS_INFO", "placement_type = MOBILE_APPLICATION"⟩,
    ⟨"GOOGLE_ADS_INFO", "ctr = 0"⟩],
   [⟨"GOOGLE_ADS_INFO", "conversions = 0"⟩,
    ⟨"WEBSITE_INFO", "title regexp game"⟩]]

/-! ## Theorems -/

theorem groupSatisfies_cons (e : SpecificationEntry) (es : List SpecificationEntry)
    (r : Row) (b : Bool) (h : is_satisfied_by e r = .ok b) :
    groupSatisfies (e :: es) r = if b then groupSatisfies es r else .ok false := by
  show ((match is_satisfied_by e r with
         | .error msg => .error msg
         | .ok true => groupSatisfies es r
         | .ok false => .ok false : Except String Bool)) = _
  rw [h]
  cases b <;> rfl

theorem groupsSatisfy_cons (g : List SpecificationEntry)
    (rest : List (List SpecificationEntry)) (r : Row) (b : Bool)
    (h : groupSatisfies g r = .ok b) :
    groupsSatisfy (g :: rest) r = if b then .ok true else groupsSatisfy rest r := by
  show ((match groupSatisfies g r with
         | .error msg => .error msg
         | .ok true => .ok true
         | .ok false => groupsSatisfy rest r : Except String Bool)) = _
  rw [h]
  cases b <;> rfl

theorem groupSatisfies_ok (g : List SpecificationEntry) (r : Row)
    (h : ∀ e ∈ g, noError e r = true) :
    ∃ b, groupSatisfies g r = .ok b := by
  induction g with
  | nil => exact ⟨true, rfl⟩
  | cons e es ih =>
    have he := h e (List.mem_cons_self e es)
    cases hres : is_satisfied_by e r with
    | error msg => simp [noError, hres] at he
    | ok b =>
      obtain ⟨b', hb'⟩ := ih (fun x hx => h x (List.mem_cons_of_mem _ hx))
      rw [groupSatisfies_cons e es r b hres]
      cases b with
      | false => exact ⟨false, by simp⟩
      | true => exact ⟨b', by simpa using hb'⟩

theorem groupSatisfies_ok_true_iff (g : List SpecificationEntry) (r : Row)
    (h : ∀ e ∈ g, noError e r = true) :
    (groupSatisfies g r = .ok true ↔ ∀ e ∈ g, is_satisfied_by e r = .ok true) := by
  induction g with
  | nil => simp [groupSatisfies]
  | cons e es ih =>
    have he := h e (List.mem_cons_self e es)
    cases hres : is_satisfied_by e r with
    | error msg => simp [noError, hres] at he
    | ok b =>
      have ih' := ih (fun x hx => h x (List.mem_cons_of_mem _ hx))
      rw [groupSatisfies_cons e es r b hres]
      cases b with
      | false => simp [hres]
      | true => simp [hres, ih']

theorem groupsSatisfy_ok_true_iff (gs : List (List SpecificationEntry)) (r : Row)
    (h : ∀ g ∈ gs, ∀ e ∈ g, noError e r = true) :
    (groupsSatisfy gs r = .ok true ↔
      ∃ g ∈ gs, ∀ e ∈ g, is_satisfied_by e r = .ok true) := by
  induction gs with
  | nil => simp [groupsSatisfy]
  | cons g rest ih =>
    have hg := h g (List.mem_cons_self g rest)
    have ih' := ih (fun x hx => h x (List.mem_cons_of_mem _ hx))
    obtain ⟨b, hb⟩ := groupSatisfies_ok g r hg
    have hiff := groupSatisfies_ok_true_iff g r hg
    rw [groupsSatisfy_cons g rest r b hb]
    cases b with
    | true =>
      have hall := hiff.mp hb
      rw [if_pos rfl]
      exact ⟨fun _ => ⟨g, List.mem_cons_self g rest, hall⟩, fun _ => rfl⟩
    | false =>
      have hnall : ¬ ∀ e ∈ g, is_satisfied_by e r = .ok true := by
        intro hall
        have := hiff.mpr hall
        rw [hb] at this
        simp at this
      rw [if_neg (by simp)]
      constructor
      · intro hrest
        obtain ⟨g', hg', hall⟩ := ih'.mp hrest
        exact ⟨g', List.mem_cons_of_mem _ hg', hall⟩
      · intro ⟨g', hg', hall⟩
        rcases List.mem_cons.mp hg' with rfl | hmem
        · exact absurd hall hnall
        · exact ih'.mpr ⟨g', hmem, hall⟩

/-- C1: for every exclusion specification with at least one group and
every row on which no entry errors, `satisfies(row)` returns true iff
some group's entries all individually return true for the row — the
disjunction of conjunctions reading of the specification. -/
theorem c1_satisfies_dnf (s : ExclusionSpecification) (r : Row)
    (hne : s.specifications ≠ [])
    (h : ∀ g ∈ s.specifications, ∀ e ∈ g, noError e r = true) :
    (satisfies s r = .ok true ↔
      ∃ g ∈ s.specifications, ∀ e ∈ g, is_satisfied_by e r = .ok true) :=
  groupsSatisfy_ok_true_iff s.specifications r h

/-- Witness for C1 at the repository's own fixture: the sample
specification (`clicks > 1 AND conversion_name regexp test_conversion`)
and the placements-report row. -/
theorem c1_satisfies_dnf_witness :
    sampleSpecification.specifications ≠ [] ∧
    (∀ g ∈ sampleSpecification.specifications, ∀ e ∈ g,
      noError e samplePlacementRow = true) ∧
    (satisfies sampleSpecification samplePlacementRow = .ok true ↔
      ∃ g ∈ sampleSpecification.specifications, ∀ e ∈ g,
        is_satisfied_by e samplePlacementRow = .ok true) :=
  ⟨by decide, by decide,
    c1_satisfies_dnf sampleSpecification samplePlacementRow (by decide) (by decide)⟩

/-- C2: evaluating an entry against a row that lacks the entry's field
is a hard error — `is_satisfied_by` raises and never returns any
boolean. -/
theorem c2_missing_field_is_error (e : SpecificationEntry) (r : Row)
    (h : getField r e.name = none) :
    (∃ msg, is_satisfied_by e r = .error msg) ∧
      ∀ b, is_satisfied_by e r ≠ .ok b := by
  unfold is_satisfied_by
  rw [h]
  exact ⟨⟨_, rfl⟩, by simp⟩

/-- Witness for C2 at the repository's own fixture: `fake_name > 0`
against the fake placement row (which has no `fake_name` field). -/
theorem c2_missing_field_is_error_witness :
    getField fakePlacement (adsEntryD "fake_name > 0").name = none ∧
    ((∃ msg, is_satisfied_by (adsEntryD "fake_name > 0") fakePlacement = .error msg) ∧
      ∀ b, is_satisfied_by (adsEntryD "fake_name > 0") fakePlacement ≠ .ok b) :=
  ⟨by decide, c2_missing_field_is_error (adsEntryD "fake_name > 0") fakePlacement (by decide)⟩

/-- C3: operator semantics of `is_satisfied_by` on a row that carries
the entry's field — `> < >= <=` coerce the literal to the numeric type
of the row's value (`int` / `float`) and compare numerically; `=` and
`!=` compare numerically when both sides parse as numbers and otherwise
as case-sensitive strings; `contains` is the substring test on the
field's string form; `regexp` is regular-expression search (not
full-match) on the string form; and the repository's concrete examples
evaluate accordingly (`clicks=10` satisfies `clicks > 1` but not
`clicks > 100`, `ctr=0.4` satisfies `ctr < 0.6`, and
`campaign_name='01_test_campaign'` satisfies
`campaign_name regexp ^01.+`). -/
theorem c3_operator_semantics :
    (∀ (e : SpecificationEntry) (r : Row) (n m : Int),
        getField r e.name = some (.intV n) → parseIntStr e.value = some m →
        (e.operator = ">" ∨ e.operator = "<" ∨ e.operator = ">=" ∨ e.operator = "<=") →
        is_satisfied_by e r = .ok (ratCompare e.operator (n : Rat) (m : Rat))) ∧
    (∀ (e : SpecificationEntry) (r : Row) (q x : Rat),
        getField r e.name = some (.ratV q) → parseRatStr e.value = some x →
        (e.operator = ">" ∨ e.operator = "<" ∨ e.operator = ">=" ∨ e.operator = "<=") →
        is_satisfied_by e r = .ok (ratCompare e.operator q x)) ∧
    (∀ (e : SpecificationEntry) (r : Row) (v : FieldValue) (a b : Rat),
        getField r e.name = some v → e.operator = "=" →
        toRatValue v = some a → parseRatStr e.value = some b →
        is_satisfied_by e r = .ok (decide (a = b))) ∧
    (∀ (e : SpecificationEntry) (r : Row) (v : FieldValue),
        getField r e.name = some v → e.operator = "=" →
        (toRatValue v = none ∨ parseRatStr e.value = none) →
        is_satisfied_by e r = .ok (decide (strForm v = e.value))) ∧
    (∀ (e : SpecificationEntry) (r : Row) (v : FieldValue),
        getField r e.name = some v → e.operator = "!=" →
        is_satisfied_by e r = .ok (!equalitySatisfied v e.value)) ∧
    (∀ (e : SpecificationEntry) (r : Row) (v : FieldValue),
        getField r e.name = some v → e.operator = "contains" →
        is_satisfied_by e r = .ok (containsSeq e.value.data (strForm v).data)) ∧
    (∀ (e : SpecificationEntry) (r : Row) (v : FieldValue),
        getField r e.name = some v → e.operator = "regexp" →
        is_satisfied_by e r = .ok (reSearch e.value (strForm v))) ∧
    is_satisfied_by (adsEntryD "clicks > 1") fakePlacement = .ok true ∧
    is_satisfied_by (adsEntryD "clicks > 100") fakePlacement = .ok false ∧
    is_satisfied_by (adsEntryD "clicks = 10") fakePlacement = .ok true ∧
    is_satisfied_by (adsEntryD "clicks != 10") fakePlacement = .ok false ∧
    is_satisfied_by (adsEntryD "ctr < 0.6") fakePlacement = .ok true ∧
    is_satisfied_by (adsEntryD "ctr > 0.6") fakePlacement = .ok false ∧
    is_satisfied_by (adsEntryD "placement_type = WEBSITE") fakePlacement = .ok true ∧
    is_satisfied_by (adsEntryD "placement_type = MOBILE_APPLICATION") fakePlacement = .ok false ∧
    is_satisfied_by (adsEntryD "placement_type contains WEB") fakePlacement = .ok true ∧
    is_satisfied_by (adsEntryD "placement_type contains MOBILE") fakePlacement = .ok false ∧
    is_satisfied_by (adsEntryD "campaign_name regexp ^01.+") fakePlacement = .ok true ∧
    is_satisfied_by (adsEntryD "campaign_name regexp ^02.+") fakePlacement = .ok false := by
  refine ⟨?_, ?_, ?_, ?_, ?_, ?_, ?_,
    by decide, by decide, by decide, by decide, by decide, by decide,
    by decide, by decide, by decide, by decide, by decide, by decide⟩
  · intro e r n m hget hm hop
    rcases hop with h | h | h | h <;>
      simp [is_satisfied_by, hget, h, numericSatisfied, hm]
  · intro e r q x hget hx hop
    rcases hop with h | h | h | h <;>
      simp [is_satisfied_by, hget, h, numericSatisfied, hx]
  · intro e r v a b hget hop ha hb
    simp [is_satisfied_by, hget, hop, equalitySatisfied, ha, hb]
  · intro e r v hget hop hnone
    rcases hnone with h | h <;>
      simp [is_satisfied_by, hget, hop, equalitySatisfied, h]
  · intro e r v hget hop
    simp [is_satisfied_by, hget, hop]
  · intro e r v hget hop
    simp [is_satisfied_by, hget, hop]
  · intro e r v hget hop
    simp [is_satisfied_by, hget, hop]

/-- Witness for C3: the first general clause instantiated at the
repository's `clicks > 1` entry and the fake placement row. -/
theorem c3_operator_semantics_witness :
    getField fakePlacement (adsEntryD "clicks > 1").name = some (.intV 10) ∧
    parseIntStr (adsEntryD "clicks > 1").value = some 1 ∧
    is_satisfied_by (adsEntryD "clicks > 1") fakePlacement =
      .ok (ratCompare (adsEntryD "clicks > 1").operator (10 : Rat) (1 : Rat)) :=
  ⟨by decide, by decide,
    c3_operator_semantics.1 (adsEntryD "clicks > 1") fakePlacement 10 1
      (by decide) (by decide) (by decide)⟩

theorem string_data_ext (a b : String) (h : a.data = b.data) : a = b := by
  cases a
  cases b
  exact congrArg String.mk h

theorem data_append (a b : String) : (a ++ b).data = a.data ++ b.data := by
  cases a
  cases b
  rfl

theorem breakAtChar_of_not_mem (ch : Char) (l : List Char) (h : ch ∉ l) :
    breakAtChar ch l = none := by
  induction l with
  | nil => rfl
  | cons c cs ih =>
    have hc : ¬ c = ch := fun hh => h (hh ▸ List.mem_cons_self c cs)
    simp [breakAtChar, hc, ih (fun hm => h (List.mem_cons_of_mem _ hm))]

theorem breakAtChar_append (ch : Char) (b a : List Char) (hb : ch ∉ b) :
    breakAtChar ch (b ++ ch :: a) = some (b, a) := by
  induction b with
  | nil => simp [breakAtChar]
  | cons c cs ih =>
    have hc : ¬ c = ch := fun hh => hb (hh ▸ List.mem_cons_self c cs)
    simp [breakAtChar, hc, ih (fun hm => hb (List.mem_cons_of_mem _ hm))]

theorem breakAtChar_some (ch : Char) (l b a : List Char)
    (h : breakAtChar ch l = some (b, a)) : l = b ++ ch :: a ∧ ch ∉ b := by
  induction l generalizing b with
  | nil => simp [breakAtChar] at h
  | cons c cs ih =>
    by_cases hc : c = ch
    · subst hc
      simp only [breakAtChar, if_pos rfl, Option.some.injEq, Prod.mk.injEq] at h
      obtain ⟨rfl, rfl⟩ := h
      exact ⟨rfl, List.not_mem_nil c⟩
    · simp only [breakAtChar, if_neg hc] at h
      cases hbc : breakAtChar ch cs with
      | none => rw [hbc] at h; simp at h
      | some p =>
        obtain ⟨b', a'⟩ := p
        rw [hbc] at h
        simp only [Option.map_some', Option.some.injEq, Prod.mk.injEq] at h
        obtain ⟨rfl, rfl⟩ := h
        obtain ⟨hl, hnm⟩ := ih b' hbc
        constructor
        · rw [List.cons_append, hl]
        · intro hmem
          rcases List.mem_cons.mp hmem with hh | hh
          · exact hc hh.symm
          · exact hnm hh

theorem tokenizeCondition_parts (f op v : String)
    (hf : ' ' ∉ f.data) (hop : ' ' ∉ op.data) (hv : v ≠ "")
    (hvalid : op ∈ validOperators) :
    tokenizeCondition (f ++ " " ++ op ++ " " ++ v) = .ok ⟨f, op, v⟩ := by
  obtain ⟨fd⟩ := f
  obtain ⟨opd⟩ := op
  obtain ⟨vd⟩ := v
  have hvd : vd ≠ [] := by
    intro hnil
    exact hv (by simp [hnil])
  obtain ⟨c, cs, rfl⟩ := List.exists_cons_of_ne_nil hvd
  have hdata : (String.mk fd ++ " " ++ String.mk opd ++ " " ++ String.mk (c :: cs)).data
      = fd ++ ' ' :: (opd ++ ' ' :: (c :: cs)) := by
    simp [data_append]
  unfold tokenizeCondition breakAtSpace
  rw [hdata, breakAtChar_append ' ' fd _ hf]
  simp only
  rw [breakAtChar_append ' ' opd _ hop]
  simp only [List.isEmpty_cons, Bool.false_eq_true, if_false, if_pos hvalid]

/-- C8: a condition string that does not consist of exactly a field
name, a recognized operator, and a non-empty value is rejected at parse
time — a wrong token count (`single_name`, `single_name >`) raises an
"Incorrect expression" length error, an unrecognized operator token
(`clicks ? 0`) raises an "Incorrect operator" error, and every
successful tokenization comes from a string of exactly the valid shape
(so no malformed condition is silently skipped). -/
theorem c8_malformed_condition_rejected :
    tokenizeCondition "single_name" = .error "Incorrect expression length: single_name" ∧
    tokenizeCondition "single_name >" = .error "Incorrect expression length: single_name >" ∧
    tokenizeCondition "clicks ? 0" = .error "Incorrect operator: ?" ∧
    (∀ (s : String) (t : CondTriple), tokenizeCondition s = .ok t →
      t.operator ∈ validOperators ∧ t.value ≠ "" ∧
      s = t.name ++ " " ++ t.operator ++ " " ++ t.value ∧
      ' ' ∉ t.name.data ∧ ' ' ∉ t.operator.data) := by
  refine ⟨by decide, by decide, by decide, ?_⟩
  intro s t h
  unfold tokenizeCondition breakAtSpace at h
  cases h1 : breakAtChar ' ' s.data with
  | none => rw [h1] at h; exact absurd h (by simp)
  | some p1 =>
    obtain ⟨name, rest⟩ := p1
    rw [h1] at h
    simp only at h
    cases h2 : breakAtChar ' ' rest with
    | none => rw [h2] at h; exact absurd h (by simp)
    | some p2 =>
      obtain ⟨op, value⟩ := p2
      rw [h2] at h
      simp only at h
      split_ifs at h with hemp hvalid
      · simp only [Except.ok.injEq] at h
        subst h
        obtain ⟨hs1, hnm1⟩ := breakAtChar_some ' ' s.data name rest h1
        obtain ⟨hs2, hnm2⟩ := breakAtChar_some ' ' rest op value h2
        refine ⟨hvalid, ?_, ?_, hnm1, hnm2⟩
        · intro hempty
          have hv0 : value = [] := congrArg String.data hempty
          rw [hv0] at hemp
          exact hemp rfl
        · apply string_data_ext
          rw [hs1, hs2]
          simp [data_append]

/-- Witness for C8's general clause at the condition `clicks > 1`. -/
theorem c8_malformed_condition_rejected_witness :
    tokenizeCondition "clicks > 1" = .ok ⟨"clicks", ">", "1"⟩ ∧
    (">" : String) ∈ validOperators ∧ ("1" : String) ≠ "" ∧
    ("clicks > 1" : String) = "clicks" ++ " " ++ ">" ++ " " ++ "1" ∧
    ' ' ∉ ("clicks" : String).data ∧ ' ' ∉ (">" : String).data :=
  ⟨by decide,
    c8_malformed_condition_rejected.2.2.2 "clicks > 1" ⟨"clicks", ">", "1"⟩ (by decide)⟩

/-- C9: every well-formed `field op value` condition with `op` in the
nine-operator vocabulary tokenizes to exactly that triple; because the
operator is delimited, `>=` is matched as `>=` and never read as `>`
(the witness instantiates `op := ">="`). -/
theorem c9_tokenize_well_formed (f op v : String)
    (hop : op ∈ validOperators) (hf : f ≠ "") (hfs : ' ' ∉ f.data) (hv : v ≠ "") :
    tokenizeCondition (f ++ " " ++ op ++ " " ++ v) = .ok ⟨f, op, v⟩ := by
  have hops : ' ' ∉ op.data := by
    fin_cases hop <;> decide
  exact tokenizeCondition_parts f op v hfs hops hv hop

/-- Witness for C9 at `clicks >= 10`: the two-character operator `>=`
is matched whole. -/
theorem c9_tokenize_well_formed_witness :
    (">=" : String) ∈ validOperators ∧
    tokenizeCondition ("clicks" ++ " " ++ ">=" ++ " " ++ "10") = .ok ⟨"clicks", ">=", "10"⟩ :=
  ⟨by decide,
    c9_tokenize_well_formed "clicks" ">=" "10" (by decide) (by decide) (by decide) (by decide)⟩

theorem length_dropWhile_le_self (p : Char → Bool) (l : List Char) :
    (l.dropWhile p).length ≤ l.length := by
  induction l with
  | nil => simp
  | cons c cs ih =>
    rw [List.dropWhile_cons]
    by_cases h : p c
    · rw [if_pos h]
      exact Nat.le_trans ih (Nat.le_succ _)
    · rw [if_neg h]

theorem dropLeadingWs_append (l m : List Char) (h : dropLeadingWs l = l)
    (hne : l ≠ []) : dropLeadingWs (l ++ m) = l ++ m := by
  cases l with
  | nil => exact absurd rfl hne
  | cons c cs =>
    have hc : c.isWhitespace = false := by
      by_contra hcc
      have hct : c.isWhitespace = true := by
        cases hb : c.isWhitespace
        · exact absurd hb hcc
        · rfl
      unfold dropLeadingWs at h
      rw [List.dropWhile_cons, if_pos hct] at h
      have hlen := congrArg List.length h
      have hle := length_dropWhile_le_self Char.isWhitespace cs
      simp at hlen
      omega
    unfold dropLeadingWs
    rw [List.cons_append, List.dropWhile_cons, if_neg (by simp [hc])]

theorem trimL_append (l sfx : List Char) (hl : dropLeadingWs l = l) (hlne : l ≠ [])
    (hs1 : dropLeadingWs sfx.reverse = sfx.reverse) (hs2 : sfx ≠ []) :
    trimL (l ++ sfx) = l ++ sfx := by
  unfold trimL
  rw [List.reverse_append]
  rw [dropLeadingWs_append sfx.reverse l.reverse hs1 (by simpa using hs2)]
  rw [List.reverse_append, List.reverse_reverse, List.reverse_reverse]
  exact dropLeadingWs_append l sfx hl hlne

/-- C5: for every field name `f` (non-empty, without spaces, colons or
leading whitespace), the rule parser rewrites `f letter_set latin_only`
into the Rule expression `f regexp '^[a-zA-Z0-9\s\W]*$'` and
`f letter_set no_latin` into `f regexp '^[^a-zA-Z]*$'` before Rule
construction, through the fixed named-set table; the repository's
concrete `WEBSITE_INFO:title` fixtures parse accordingly through
`generate_rules`. -/
theorem c5_letter_set_rewrite (f : String)
    (hf : f ≠ "") (hsp : ' ' ∉ f.data) (hcol : ':' ∉ f.data)
    (hws : dropLeadingWs f.data = f.data) :
    parseCondition (f ++ " letter_set latin_only") =
      .ok ⟨defaultRuleType, f ++ " regexp '^[a-zA-Z0-9\\s\\W]*$'"⟩ ∧
    parseCondition (f ++ " letter_set no_latin") =
      .ok ⟨defaultRuleType, f ++ " regexp '^[^a-zA-Z]*$'"⟩ ∧
    generate_rules (.rules ["WEBSITE_INFO:title letter_set latin_only",
                            "WEBSITE_INFO:title letter_set no_latin"]) =
      .ok [[⟨"WEBSITE_INFO", "title regexp '^[a-zA-Z0-9\\s\\W]*$'"⟩],
           [⟨"WEBSITE_INFO", "title regexp '^[^a-zA-Z]*$'"⟩]] := by
  have hfd : f.data ≠ [] := by
    intro hnil
    exact hf (string_data_ext f "" hnil)
  refine ⟨?_, ?_, by decide⟩
  · have htrim : trimS (f ++ " letter_set latin_only") = f ++ " letter_set latin_only" := by
      apply string_data_ext
      show trimL (f ++ " letter_set latin_only").data = _
      rw [data_append]
      rw [trimL_append f.data (" letter_set latin_only").data hws hfd (by decide) (by decide)]
    have hcolon : breakAtChar ':' (f ++ " letter_set latin_only").data = none := by
      apply breakAtChar_of_not_mem
      rw [data_append]
      intro hmem
      rcases List.mem_append.mp hmem with hm | hm
      · exact hcol hm
      · revert hm
        decide
    have hshape : f ++ " letter_set latin_only" =
        f ++ " " ++ "letter_set" ++ " " ++ "latin_only" := by
      apply string_data_ext
      simp [data_append]
    have htok : tokenizeCondition (f ++ " letter_set latin_only") =
        .ok ⟨f, "letter_set", "latin_only"⟩ := by
      rw [hshape]
      exact tokenizeCondition_parts f "letter_set" "latin_only" hsp
        (by decide) (by decide) (by decide)
    have hstr : f ++ " regexp '" ++ "^[a-zA-Z0-9\\s\\W]*$" ++ "'" =
        f ++ " regexp '^[a-zA-Z0-9\\s\\W]*$'" := by
      apply string_data_ext
      simp [data_append]
    unfold parseCondition splitTypePrefix
    rw [htrim, hcolon]
    simp only
    rw [htok]
    have hlook : List.lookup ("latin_only" : String) letterSets =
        some "^[a-zA-Z0-9\\s\\W]*$" := by decide
    simp [expandMacro, hlook, hstr]
  · have htrim : trimS (f ++ " letter_set no_latin") = f ++ " letter_set no_latin" := by
      apply string_data_ext
      show trimL (f ++ " letter_set no_latin").data = _
      rw [data_append]
      rw [trimL_append f.data (" letter_set no_latin").data hws hfd (by decide) (by decide)]
    have hcolon : breakAtChar ':' (f ++ " letter_set no_latin").data = none := by
      apply breakAtChar_of_not_mem
      rw [data_append]
      intro hmem
      rcases List.mem_append.mp hmem with hm | hm
      · exact hcol hm
      · revert hm
        decide
    have hshape : f ++ " letter_set no_latin" =
        f ++ " " ++ "letter_set" ++ " " ++ "no_latin" := by
      apply string_data_ext
      simp [data_append]
    have htok : tokenizeCondition (f ++ " letter_set no_latin") =
        .ok ⟨f, "letter_set", "no_latin"⟩ := by
      rw [hshape]
      exact tokenizeCondition_parts f "letter_set" "no_latin" hsp
        (by decide) (by decide) (by decide)
    have hstr : f ++ " regexp '" ++ "^[^a-zA-Z]*$" ++ "'" =
        f ++ " regexp '^[^a-zA-Z]*$'" := by
      apply string_data_ext
      simp [data_append]
    unfold parseCondition splitTypePrefix
    rw [htrim, hcolon]
    simp only
    rw [htok]
    have hlook : List.lookup ("no_latin" : String) letterSets =
        some "^[^a-zA-Z]*$" := by decide
    simp [expandMacro, hlook, hstr]

/-- Witness for C5 at the field name `title`. -/
theorem c5_letter_set_rewrite_witness :
    ("title" : String) ≠ "" ∧
    parseCondition ("title" ++ " letter_set latin_only") =
      .ok ⟨defaultRuleType, "title" ++ " regexp '^[a-zA-Z0-9\\s\\W]*$'"⟩ :=
  ⟨by decide,
    (c5_letter_set_rewrite "title" (by decide) (by decide) (by decide) (by decide)).1⟩

/-- C6 counterexample: a specification whose groups are all empty (one
empty group) is inactive under the truthiness rule, yet `satisfies`
returns true for it on any row — the OR-of-ANDs semantics makes an
empty group vacuously satisfied — so "inactive matches no row" fails
for the all-empty-groups case. -/
theorem c6_counterexample :
    isActive ⟨[[]]⟩ = false ∧ satisfies ⟨[[]]⟩ ([] : Row) = .ok true := by
  exact ⟨rfl, rfl⟩

/-- C6 (amended): a specification with zero groups satisfies no row;
any inactive specification (zero groups or all-empty groups) gives an
empty result through the report filter; inactivity is exactly "all
groups empty"; and at least one non-empty group makes the
specification active. -/
theorem c6_amended_inactive_specification (s : ExclusionSpecification) (r : Row)
    (rows : List Row) :
    (s.specifications = [] → satisfies s r = .ok false) ∧
    (isActive s = false → apply_specifications s rows = .ok []) ∧
    (isActive s = false ↔ ∀ g ∈ s.specifications, g = []) ∧
    ((∃ g ∈ s.specifications, g ≠ []) → isActive s = true) := by
  refine ⟨?_, ?_, ?_, ?_⟩
  · intro h
    simp [satisfies, groupsSatisfy, h]
  · intro h
    simp [apply_specifications, h]
  · simp [isActive, List.any_eq_false, List.isEmpty_iff]
  · intro ⟨g, hg, hne⟩
    unfold isActive
    rw [List.any_eq_true]
    exact ⟨g, hg, by simpa [List.isEmpty_iff] using hne⟩

/-- Witness for the amended C6: the empty specification applied to a
non-empty row sequence. -/
theorem c6_amended_inactive_specification_witness :
    (⟨[]⟩ : ExclusionSpecification).specifications = [] ∧
    satisfies ⟨[]⟩ ([] : Row) = .ok false ∧
    isActive ⟨[]⟩ = false ∧
    apply_specifications ⟨[]⟩ [[("clicks", FieldValue.intV 1)]] = .ok [] :=
  ⟨rfl,
    (c6_amended_inactive_specification ⟨[]⟩ [] [[("clicks", .intV 1)]]).1 rfl,
    by decide,
    (c6_amended_inactive_specification ⟨[]⟩ [] [[("clicks", .intV 1)]]).2.1 (by decide)⟩

/-- C7 counterexample: the projection `entries_for_type` is NOT always
weaker than the full specification — dropping a group that has no
entry of the requested type strengthens the disjunction.  Here the full
specification (one website-tagged group) is satisfied by the row, but
its projection to the primary type is the empty specification, which
satisfies nothing. -/
theorem c7_counterexample :
    satisfies ⟨[[websiteEntryD "title contains game"]]⟩ [("title", .strV "game")] = .ok true ∧
    satisfies
      (entries_for_type ⟨[[websiteEntryD "title contains game"]]⟩ "GOOGLE_ADS_INFO")
      [("title", .strV "game")] = .ok false := by
  exact ⟨by decide, by decide⟩

/-- C7 (amended): the projection is weaker than the full specification
provided every group retains at least one entry of the requested type —
when no group is dropped, a row accepted by the full specification (with
no entry erroring on it) is accepted by the projection. -/
theorem c7_amended_projection_weaker (s : ExclusionSpecification) (t : String) (r : Row)
    (herr : ∀ g ∈ s.specifications, ∀ e ∈ g, noError e r = true)
    (hall : ∀ g ∈ s.specifications, ∃ e ∈ g, e.entry_type = t)
    (hsat : satisfies s r = .ok true) :
    satisfies (entries_for_type s t) r = .ok true := by
  have herr' : ∀ g ∈ (entries_for_type s t).specifications, ∀ e ∈ g,
      noError e r = true := by
    intro g hg e he
    simp only [entries_for_type, List.mem_filterMap] at hg
    obtain ⟨g0, hg0, hf⟩ := hg
    by_cases hemp : (g0.filter (fun e => e.entry_type = t)).isEmpty
    · rw [if_pos hemp] at hf
      exact absurd hf (by simp)
    · rw [if_neg hemp] at hf
      have hgeq := Option.some.inj hf
      rw [← hgeq] at he
      exact herr g0 hg0 e (List.mem_filter.mp he).1
  obtain ⟨g, hg, hgtrue⟩ := (groupsSatisfy_ok_true_iff s.specifications r herr).mp hsat
  apply (groupsSatisfy_ok_true_iff (entries_for_type s t).specifications r herr').mpr
  refine ⟨g.filter (fun e => e.entry_type = t), ?_, ?_⟩
  · simp only [entries_for_type, List.mem_filterMap]
    refine ⟨g, hg, ?_⟩
    obtain ⟨e, he, het⟩ := hall g hg
    have hmem : e ∈ g.filter (fun e => e.entry_type = t) :=
      List.mem_filter.mpr ⟨he, by simp [het]⟩
    rw [if_neg ?hne]
    case hne =>
      intro hemp
      rw [List.isEmpty_iff] at hemp
      rw [hemp] at hmem
      exact List.not_mem_nil e hmem
  · intro e he
    exact hgtrue e (List.mem_filter.mp he).1

/-- Witness for the amended C7: a mixed group whose ads entry survives
the projection. -/
theorem c7_amended_projection_weaker_witness :
    satisfies ⟨[[adsEntryD "clicks > 1", websiteEntryD "title contains game"]]⟩
      [("clicks", .intV 10), ("title", .strV "game")] = .ok true ∧
    satisfies
      (entries_for_type ⟨[[adsEntryD "clicks > 1", websiteEntryD "title contains game"]]⟩
        "GOOGLE_ADS_INFO")
      [("clicks", .intV 10), ("title", .strV "game")] = .ok true :=
  ⟨by decide,
    c7_amended_projection_weaker
      ⟨[[adsEntryD "clicks > 1", websiteEntryD "title contains game"]]⟩
      "GOOGLE_ADS_INFO"
      [("clicks", .intV 10), ("title", .strV "game")]
      (by decide) (by decide) (by decide)⟩

/-- C10: `entries_for_type` keeps, from each group, exactly the entries
whose source type equals the requested type, in original group order
(the filterMap is the type-filter of each group with the emptied groups
dropped); every surviving group is non-empty and purely of the
requested type; and the repository's fixtures project accordingly
(`ads_specs_entries` of the all-ads sample specification is itself, and
the projection of a mixed specification keeps only the ads entries,
dropping the group that becomes empty). -/
theorem c10_entries_for_type (s : ExclusionSpecification) (t : String) :
    (entries_for_type s t).specifications =
      (s.specifications.map (fun g => g.filter (fun e => e.entry_type = t))).filter
        (fun g => !g.isEmpty) ∧
    (∀ g ∈ (entries_for_type s t).specifications,
      g ≠ [] ∧ ∀ e ∈ g, e.entry_type = t) ∧
    entries_for_type mixedSpecification "GOOGLE_ADS_INFO" =
      ⟨[[adsEntryD "clicks > 1"]]⟩ ∧
    ads_specs_entries sampleSpecification = sampleSpecification := by
  refine ⟨?_, ?_, by decide, by decide⟩
  · show (s.specifications.filterMap _) = _
    induction s.specifications with
    | nil => rfl
    | cons g gs ih =>
      rw [List.filterMap_cons, List.map_cons, List.filter_cons]
      cases hemp : (g.filter (fun e => e.entry_type = t)).isEmpty with
      | true => exact ih
      | false => exact congrArg (g.filter (fun e => e.entry_type = t) :: ·) ih
  · intro g hg
    simp only [entries_for_type, List.mem_filterMap] at hg
    obtain ⟨g0, hg0, hf⟩ := hg
    by_cases hemp : (g0.filter (fun e => e.entry_type = t)).isEmpty
    · rw [if_pos hemp] at hf
      exact absurd hf (by simp)
    · rw [if_neg hemp] at hf
      obtain rfl := Option.some.inj hf
      constructor
      · intro hnil
        rw [hnil] at hemp
        exact hemp rfl
      · intro e he
        have hty := (List.mem_filter.mp he).2
        simpa using hty

/-- Witness for C10 at the mixed specification and the primary source
type. -/
theorem c10_entries_for_type_witness :
    ((entries_for_type mixedSpecification "GOOGLE_ADS_INFO").specifications =
      (mixedSpecification.specifications.map
        (fun g => g.filter (fun e => e.entry_type = "GOOGLE_ADS_INFO"))).filter
        (fun g => !g.isEmpty)) ∧
    ([adsEntryD "clicks > 1"] ≠ [] ∧
      ∀ e ∈ [adsEntryD "clicks > 1"], e.entry_type = "GOOGLE_ADS_INFO") :=
  ⟨(c10_entries_for_type mixedSpecification "GOOGLE_ADS_INFO").1,
    (c10_entries_for_type mixedSpecification "GOOGLE_ADS_INFO").2.1
      [adsEntryD "clicks > 1"] (by decide)⟩

theorem mapM_map_eq_mapM {α β γ : Type} (l : List α) (f : α → β)
    (g : β → Except String γ) (h : α → Except String γ)
    (H : ∀ x ∈ l, g (f x) = h x) : (l.map f).mapM g = l.mapM h := by
  induction l with
  | nil => rfl
  | cons a as ih =>
    rw [List.map_cons, List.mapM_cons, List.mapM_cons,
      H a (List.mem_cons_self a as), ih (fun x hx => H x (List.mem_cons_of_mem _ hx))]

theorem parseCondition_type (cond : String) (ru : Rule)
    (h : parseCondition cond = .ok ru) :
    ru.type = (splitTypePrefix (trimS cond)).1 := by
  unfold parseCondition at h
  cases htok : tokenizeCondition (splitTypePrefix (trimS cond)).2 with
  | error m => rw [htok] at h; exact absurd h (by simp)
  | ok t =>
    rw [htok] at h
    have h' : expandMacro (splitTypePrefix (trimS cond)).1 t
        (splitTypePrefix (trimS cond)).2 = Except.ok ru := h
    unfold expandMacro at h'
    split_ifs at h' with hls
    · cases hlk : List.lookup t.value letterSets with
      | none => rw [hlk] at h'; exact absurd h' (by simp)
      | some pat =>
        rw [hlk] at h'
        rw [← Except.ok.inj h']
    · rw [← Except.ok.inj h']

set_option maxRecDepth 4000 in
/-- C4: `generate_rules` mirrors input order — the repository's three
fixtures (explicit-type list, implicit-type list, combined ` AND ` /
` OR ` expression) all produce the same expected RuleSet; a parsed
condition without a `TYPE:` prefix carries the default source type
`GOOGLE_ADS_INFO` while one with a prefix keeps its own type; and, for
every group structure whose conditions are restored by splitting the
joined forms, the sequence form and the equivalent combined-string form
yield the identical RuleSet. -/
theorem c4_generate_rules (gs : List (List String))
    (h1 : splitOnStr " OR " (joinStr " OR " (gs.map (joinStr " AND "))) =
      gs.map (joinStr " AND "))
    (h2 : ∀ g ∈ gs, splitOnStr " AND " (joinStr " AND " g) = g)
    (h3 : ∀ g ∈ gs, splitOnStr "," (joinStr "," g) = g) :
    generate_rules (.rules rawRulesFixture) = .ok expectedRulesFixture ∧
    generate_rules (.rules implicitRawRulesFixture) = .ok expectedRulesFixture ∧
    generate_rules (.expr rulesExpressionFixture) = .ok expectedRulesFixture ∧
    (∀ (cond : String) (ru : Rule), breakAtChar ':' (trimS cond).data = none →
      parseCondition cond = .ok ru → ru.type = defaultRuleType) ∧
    (∀ (cond : String) (ru : Rule) (ty expr : List Char),
      breakAtChar ':' (trimS cond).data = some (ty, expr) →
      parseCondition cond = .ok ru → ru.type = String.mk ty) ∧
    generate_rules (.rules (gs.map (joinStr ","))) =
      generate_rules (.expr (joinStr " OR " (gs.map (joinStr " AND ")))) := by
  refine ⟨by decide, by decide, by decide, ?_, ?_, ?_⟩
  · intro cond ru hcol hok
    rw [parseCondition_type cond ru hok]
    unfold splitTypePrefix
    rw [hcol]
  · intro cond ru ty expr hcol hok
    rw [parseCondition_type cond ru hok]
    unfold splitTypePrefix
    rw [hcol]
  · have lhs_eq : generate_rules (.rules (gs.map (joinStr ","))) =
        (gs.map (joinStr ",")).mapM
          (fun e => (splitOnStr "," e).mapM parseCondition) := rfl
    have rhs_eq : generate_rules (.expr (joinStr " OR " (gs.map (joinStr " AND ")))) =
        (splitOnStr " OR " (joinStr " OR " (gs.map (joinStr " AND ")))).mapM
          (fun clause => (splitOnStr " AND " clause).mapM parseCondition) := rfl
    rw [lhs_eq, rhs_eq, h1]
    rw [mapM_map_eq_mapM gs (joinStr ",")
      (fun e => (splitOnStr "," e).mapM parseCondition)
      (fun g => g.mapM parseCondition)
      (fun g hg => by
        show (splitOnStr "," (joinStr "," g)).mapM parseCondition =
          g.mapM parseCondition
        rw [h3 g hg])]
    rw [mapM_map_eq_mapM gs (joinStr " AND ")
      (fun e => (splitOnStr " AND " e).mapM parseCondition)
      (fun g => g.mapM parseCondition)
      (fun g hg => by
        show (splitOnStr " AND " (joinStr " AND " g)).mapM parseCondition =
          g.mapM parseCondition
        rw [h2 g hg])]

/-- Witness for C4: a concrete two-group rule structure whose comma
form and ` AND ` / ` OR ` form parse identically. -/
theorem c4_generate_rules_witness :
    (splitOnStr " OR "
        (joinStr " OR " ([["a > 1", "b = 2"], ["c < 3"]].map (joinStr " AND "))) =
      [["a > 1", "b = 2"], ["c < 3"]].map (joinStr " AND ")) ∧
    generate_rules (.rules ([["a > 1", "b = 2"], ["c < 3"]].map (joinStr ","))) =
      generate_rules
        (.expr (joinStr " OR " ([["a > 1", "b = 2"], ["c < 3"]].map (joinStr " AND ")))) :=
  ⟨by decide,
    (c4_generate_rules [["a > 1", "b = 2"], ["c < 3"]]
      (by decide) (by decide) (by decide)).2.2.2.2.2⟩

end Bach
